import Mathlib

/-!
Verification of the roll-call preparation pipeline (vote-matrix partitioning,
quality filtering, consistency enforcement, fingerprint caching, payload
building and polarity normalization).

The Python sources are shallowly embedded: pandas data frames become a record
of row labels, column labels and an entry function; MongoDB collections become
association lists; per-record exceptions become `Except`; in-place mutation of
Python list objects becomes explicit heap passing.  Machine floats appearing in
coordinates are modelled as rationals (the properties verified here concern
control flow and sign changes, not rounding).
-/

/-! ## Roll-call matrices

A pandas `DataFrame` of casts (legislators as rows, ballots as columns) is
embedded as the pair of its label lists together with the cast lookup
function.  Casts are the raw integers of the CSV files: `1` = Yea, `0` = Nay,
`9` = not eligible / absent; a cast is *valid* when it differs from `9`.
-/

structure RollMatrix where
  rowIds : List Int
  colIds : List Int
  entry : Int → Int → Int

/-- Number of valid (non-9) casts in legislator `l`'s row,
`(period_matrix != 9).sum(axis=1)` for that row. -/
def countValidRow (m : RollMatrix) (l : Int) : Nat :=
  (m.colIds.filter fun c => m.entry l c != 9).length

/-- Number of valid (non-9) casts in ballot `c`'s column,
`(period_matrix != 9).sum(axis=0)` for that column. -/
def countValidCol (m : RollMatrix) (c : Int) : Nat :=
  (m.rowIds.filter fun l => m.entry l c != 9).length

/-- Number of casts equal to `v` in ballot `c`'s column (used by the
unanimity cut: `(valid_votes == 1).sum()` and `(valid_votes == 0).sum()`). -/
def countEqCol (m : RollMatrix) (c : Int) (v : Int) : Nat :=
  (m.rowIds.filter fun l => m.entry l c == v).length

/-- Per-period quality filter of `export_votes_for_dwnominate_from_csv`
(src/export_votes_for_dwnominate.py, lines 218-260).  The thresholds are the
hard-coded `min_votes_per_legislator = 10` and `min_legislators_per_vote = 10`.
Note the source computes `legislator_vote_counts` and `vote_participation`
both on the *unfiltered* `period_matrix` and applies the two masks
simultaneously with `period_matrix.loc[active_legislators, active_votes]`;
the unanimity cut then runs on the doubly-masked matrix and keeps a column
only when it still has at least one Yea and at least one Nay. -/
def filterExport (m : RollMatrix) : RollMatrix :=
  let activeLegs := m.rowIds.filter fun l => decide (10 ≤ countValidRow m l)
  let activeVotes := m.colIds.filter fun c => decide (10 ≤ countValidCol m c)
  let f1 : RollMatrix := ⟨activeLegs, activeVotes, m.entry⟩
  let nonUnanimous := f1.colIds.filter fun c =>
    decide (0 < countEqCol f1 c 1) && decide (0 < countEqCol f1 c 0)
  ⟨f1.rowIds, nonUnanimous, m.entry⟩

/-- Per-period quality filter of `create_period_matrices`
(src/prepare_dwnominate_5periods.py, lines 240-254).  Here the legislator cut
is applied *first* (`period_matrix = period_matrix.loc[active_legislators, :]`)
and only then is `vote_participation` computed, on the row-filtered matrix.
There is no unanimity cut in this variant. -/
def filter5 (minV minL : Nat) (m : RollMatrix) : RollMatrix :=
  let m1 : RollMatrix := ⟨m.rowIds.filter (fun l => decide (minV ≤ countValidRow m l)),
                          m.colIds, m.entry⟩
  ⟨m1.rowIds, m1.colIds.filter (fun c => decide (minL ≤ countValidCol m1 c)), m.entry⟩

/-! ### Concrete matrices used as counterexamples and witnesses -/

/-- An 11-legislator x 11-ballot matrix.  Legislator 1 votes Nay on every
ballot, legislators 2-9 vote Yea on every ballot, legislator 10 votes Yea on
ballots 1-10 and is absent from ballot 11, legislator 11 votes Yea on ballot
11 only. -/
def exMatrix : RollMatrix where
  rowIds := [1, 2, 3, 4, 5, 6, 7, 8, 9, 10, 11]
  colIds := [1, 2, 3, 4, 5, 6, 7, 8, 9, 10, 11]
  entry := fun l c =>
    if l = 1 then 0
    else if l = 10 then (if c = 11 then 9 else 1)
    else if l = 11 then (if c = 11 then 1 else 9)
    else 1

/-- A 10x10 matrix in which every legislator casts 10 valid votes, every
ballot receives 10 valid casts, and every ballot has one Nay (legislator 1)
and nine Yeas. -/
def exSaturated : RollMatrix where
  rowIds := [1, 2, 3, 4, 5, 6, 7, 8, 9, 10]
  colIds := [1, 2, 3, 4, 5, 6, 7, 8, 9, 10]
  entry := fun l _ => if l = 1 then 0 else 1

/-! ## C1: order of the legislator cut and the ballot cut -/

/-- C1 (counterexample).  In `export_votes_for_dwnominate_from_csv` the ballot
participation counts are taken on the *unfiltered* period matrix, not on the
matrix left by the legislator cut: on `exMatrix`, ballot 11 is kept by the
filter (its pre-cut participation is 10) although only 9 of the surviving
legislators cast a valid vote on it, so the claimed "keeps exactly those
ballots whose valid-cast count among the surviving legislators is >=
minLegislatorsPerVote" fails. -/
theorem c1_counterexample :
    (11 : Int) ∈ (filterExport exMatrix).colIds ∧
    countValidCol (filterExport exMatrix) 11 < 10 := by
  decide

/-- C1 (amended).  In `create_period_matrices` of
`prepare_dwnominate_5periods.py` the legislator cut does precede the ballot
cut: the surviving rows are exactly the legislators meeting
`min_votes_per_legislator` on the period matrix, and every kept ballot has at
least `min_legislators_per_vote` valid casts *among the surviving
legislators*.  (In `export_votes_for_dwnominate_from_csv` both cuts are
instead computed on the unfiltered matrix, see `c1_counterexample`.) -/
theorem c1_ballot_cut_counts_survivors (minV minL : Nat) (m : RollMatrix) :
    (filter5 minV minL m).rowIds
      = m.rowIds.filter (fun l => decide (minV ≤ countValidRow m l)) ∧
    ∀ c ∈ (filter5 minV minL m).colIds,
      minL ≤ countValidCol (filter5 minV minL m) c := by
  refine ⟨rfl, fun c hc => ?_⟩
  have h := (List.mem_filter.mp hc).2
  exact of_decide_eq_true h

/-- Witness for `c1_ballot_cut_counts_survivors` at the concrete matrix
`exSaturated` with both thresholds 10. -/
theorem c1_ballot_cut_witness :
    (5 : Int) ∈ (filter5 10 10 exSaturated).colIds ∧
    10 ≤ countValidCol (filter5 10 10 exSaturated) 5 :=
  ⟨by decide, (c1_ballot_cut_counts_survivors 10 10 exSaturated).2 5 (by decide)⟩

/-! ## C3: idempotence of the quality filter -/

/-- C3 (counterexample).  The quality filter is not idempotent: on `exMatrix`
the first application keeps ballot 11 (pre-cut participation 10), which after
the legislator cut has only 9 valid casts, so a second application removes it
and the output changes. -/
theorem c3_counterexample :
    filterExport (filterExport exMatrix) ≠ filterExport exMatrix := fun h =>
  absurd (congrArg RollMatrix.colIds h) (by decide)

/-- C3 (amended).  The quality filter is not a projection on all matrices
(see `c3_counterexample`), but any matrix that already satisfies all three
cut conditions - every legislator has at least 10 valid casts, every ballot
has at least 10 valid casts, and every ballot has both a Yea and a Nay - is a
fixed point of the filter. -/
theorem c3_filter_fixed_point (m : RollMatrix)
    (hrow : ∀ l ∈ m.rowIds, 10 ≤ countValidRow m l)
    (hcol : ∀ c ∈ m.colIds, 10 ≤ countValidCol m c)
    (hnu : ∀ c ∈ m.colIds, 0 < countEqCol m c 1 ∧ 0 < countEqCol m c 0) :
    filterExport m = m := by
  cases m with
  | mk rows cols e =>
    simp only [filterExport]
    rw [List.filter_eq_self.mpr (fun l hl => decide_eq_true (hrow l hl))]
    rw [List.filter_eq_self.mpr (fun c hc => decide_eq_true (hcol c hc))]
    rw [List.filter_eq_self.mpr (fun c hc => by
      have h := hnu c hc
      simp only [Bool.and_eq_true, decide_eq_true_eq]
      exact h)]

/-- Witness for `c3_filter_fixed_point`: the saturated 10x10 matrix is left
unchanged by the filter. -/
theorem c3_fixed_point_witness : filterExport exSaturated = exSaturated :=
  c3_filter_fixed_point exSaturated (by decide) (by decide) (by decide)

/-! ## C5: the consistency enforcer

Embedding of the "Ensure consistent legislator set across periods" block of
`export_votes_for_dwnominate_from_csv` (src/export_votes_for_dwnominate.py,
lines 287-341; the block at lines 309-350 of
`export_votes_for_dwnominate_6periods.py` is identical): take the union of
all row labels, reindex every period matrix to that union filling missing
rows with 9, remove every legislator whose valid-cast count is below
`min_required_votes = 1` in at least one reindexed period, and restrict all
matrices to the remaining legislators.
-/

/-- Embedding of `sorted(list(set(xs)))`. -/
def dedupSort (xs : List Int) : List Int :=
  xs.dedup.mergeSort (fun a b => decide (a ≤ b))

/-- Union of the legislator row labels of all period matrices
(`all_legislators`). -/
def allLegsOf (ms : List RollMatrix) : List Int :=
  dedupSort (ms.flatMap (fun m => m.rowIds))

/-- Embedding of `matrix.reindex(index=legs, fill_value=9)`: the rows become `legs`; a row
already present keeps its casts, a missing row is filled with 9. -/
def reindexRows (m : RollMatrix) (legs : List Int) : RollMatrix :=
  ⟨legs, m.colIds, fun l c => if l ∈ m.rowIds then m.entry l c else 9⟩

/-- All period matrices reindexed to the common legislator union. -/
def reindexedOf (ms : List RollMatrix) : List RollMatrix :=
  ms.map (fun m => reindexRows m (allLegsOf ms))

/-- The list `legislators_to_keep`: the union minus `legislators_to_remove`, i.e. the
legislators with at least `min_required_votes = 1` valid casts in every
reindexed period. -/
def keepOf (ms : List RollMatrix) : List Int :=
  (allLegsOf ms).filter
    (fun l => (reindexedOf ms).all (fun m => decide (1 ≤ countValidRow m l)))

/-- The consistency enforcer: reindex to the union, then restrict every
period matrix to `legislators_to_keep` (`.loc[legislators_to_keep]`). -/
def enforceConsistency (ms : List RollMatrix) : List RollMatrix :=
  (reindexedOf ms).map (fun m => ⟨keepOf ms, m.colIds, m.entry⟩)

/-- First example period matrix for the consistency witness: legislators
1 and 2, one ballot on which both vote. -/
def periodA : RollMatrix := ⟨[1, 2], [1], fun _ _ => 1⟩

/-- Second example period matrix for the consistency witness: legislators
2 and 3, one ballot on which both vote. -/
def periodB : RollMatrix := ⟨[2, 3], [1], fun _ _ => 0⟩

/-- C5.  After the consistency enforcer, the result has one matrix per input
period, every returned matrix has exactly the common kept legislator list as
its rows, and any legislator whose valid-cast count falls below the minimum
bound (1) in any single reindexed period appears in no returned matrix. -/
theorem c5_consistent_rows_across_periods (ms : List RollMatrix) :
    (enforceConsistency ms).length = ms.length ∧
    (∀ m ∈ enforceConsistency ms, m.rowIds = keepOf ms) ∧
    (∀ l : Int, (∃ m ∈ reindexedOf ms, countValidRow m l < 1) →
      ∀ m ∈ enforceConsistency ms, l ∉ m.rowIds) := by
  refine ⟨?_, fun m hm => ?_, fun l hbad m hm hl => ?_⟩
  · simp [enforceConsistency, reindexedOf]
  · obtain ⟨m0, _, rfl⟩ := List.mem_map.mp hm
    rfl
  · obtain ⟨m0, hm0, rfl⟩ := List.mem_map.mp hm
    obtain ⟨mb, hmb, hcount⟩ := hbad
    have hall := (List.mem_filter.mp hl).2
    have h1 := (List.all_eq_true.mp hall) mb hmb
    exact absurd (of_decide_eq_true h1) (by omega)

/-- Witness for `c5_consistent_rows_across_periods` on the two example
periods: legislator 1 is absent (all-9 after reindexing) from `periodB`, so
it is removed from every returned matrix. -/
theorem c5_consistency_witness :
    (∃ m ∈ reindexedOf [periodA, periodB], countValidRow m 1 < 1) ∧
    ∀ m ∈ enforceConsistency [periodA, periodB], (1 : Int) ∉ m.rowIds :=
  ⟨by decide, (c5_consistent_rows_across_periods [periodA, periodB]).2.2 1 (by decide)⟩

/-! ## C4: the period partitioners

Timestamps are embedded as naturals through an order-preserving encoding of
`(year, month, day)` plus an intra-day offset below 100000; every `datetime`
comparison in the sources is a comparison of these encodings.
-/

/-- Order-preserving encoding of a calendar date at midnight (months are at
most 12 < 16, days at most 31 < 32, and the factor 100000 leaves room for an
intra-day second offset below 86400). -/
def encodeDate (y m d : Nat) : Nat :=
  ((y * 16 + m) * 32 + d) * 100000

/-- Embedding of `classify_vote_by_period` of src/prepare_dwnominate_5periods.py (lines
98-109): an unparsable date gives `'UNKNOWN'`; otherwise the first period of
`PERIOD_DEFINITIONS` (iterated in insertion order P1..P5) with
`period_start <= vote_date < period_end` is returned, else `'UNKNOWN'`. -/
def classify_vote_by_period (dateParsed : Option Nat) : String :=
  match dateParsed with
  | none => "UNKNOWN"
  | some d =>
    if encodeDate 2018 3 11 ≤ d ∧ d < encodeDate 2018 11 1 then "P1"
    else if encodeDate 2018 11 1 ≤ d ∧ d < encodeDate 2019 6 20 then "P2"
    else if encodeDate 2019 6 20 ≤ d ∧ d < encodeDate 2020 2 10 then "P3"
    else if encodeDate 2020 2 10 ≤ d ∧ d < encodeDate 2020 10 1 then "P4"
    else if encodeDate 2020 10 1 ≤ d ∧ d < encodeDate 2022 3 10 then "P5"
    else "UNKNOWN"

/-- Period assignment loop of `export_votes_for_dwnominate_from_csv`
(src/export_votes_for_dwnominate.py, lines 141-169, periods from
`define_periods`, lines 39-70): a ballot whose `fecha` is missing or
unparsable is excluded (`continue`, never entered in `vote_period_map`,
modelled as `none`); otherwise the loop takes the first period with
`period_start <= fecha <= period_end` (closed intervals, endpoints parsed at
midnight) and breaks, and a ballot matching no period stays out of the map
(`vote_period_map.get(..., None)`). -/
def assign_vote_period (fecha : Option Nat) : Option String :=
  match fecha with
  | none => none
  | some d =>
    if encodeDate 2018 1 1 ≤ d ∧ d ≤ encodeDate 2018 12 31 then some "P1"
    else if encodeDate 2019 1 1 ≤ d ∧ d ≤ encodeDate 2019 12 31 then some "P2"
    else if encodeDate 2020 1 1 ≤ d ∧ d ≤ encodeDate 2020 6 30 then some "P3"
    else if encodeDate 2020 7 1 ≤ d ∧ d ≤ encodeDate 2020 12 31 then some "P4"
    else if encodeDate 2021 1 1 ≤ d ∧ d ≤ encodeDate 2021 12 31 then some "P5"
    else none

/-- Period assignment of src/export_votes_for_wnominate_3periods.py (lines
43-47): every row starts at the default `'P3'`; rows with
`fecha < fecha_estallido` become `'P1'` and rows with
`fecha_estallido <= fecha < fecha_plebiscito` become `'P2'`.  A row whose
timestamp failed to parse (`NaT`) satisfies neither comparison and keeps the
default `'P3'`, as does any date at or after `fecha_plebiscito`. -/
def classify3 (fecha : Option Nat) : String :=
  match fecha with
  | none => "P3"
  | some d =>
    if d < encodeDate 2019 10 18 then "P1"
    else if encodeDate 2019 10 18 ≤ d ∧ d < encodeDate 2020 10 25 then "P2"
    else "P3"

/-- C4 (counterexample).  The 3-period variant defaults ballots into `P3`:
a ballot dated 2022-06-01 - after the end 2022-03-10 of P3's documented
interval (P3: 25/10/2020 - 10/03/2022) - is still assigned `P3`, so a ballot
can be defaulted into a period whose interval does not contain it. -/
theorem c4_counterexample :
    classify3 (some (encodeDate 2022 6 1)) = "P3" ∧
    ¬(encodeDate 2020 10 25 ≤ encodeDate 2022 6 1 ∧
      encodeDate 2022 6 1 < encodeDate 2022 3 10) := by
  constructor
  · decide
  · decide

/-- C4 (amended).  Both 5-period partitioners are exact.  In
`prepare_dwnominate_5periods.py`, a ballot with a valid timestamp is
assigned to a period precisely when its timestamp lies in that period's
half-open interval (so to exactly one period, the intervals being pairwise
disjoint) and is marked `'UNKNOWN'` precisely when no interval contains it.
In `export_votes_for_dwnominate_from_csv`, a ballot is mapped to a period
precisely when its timestamp lies in that period's closed interval (again
pairwise disjoint) and is left unassigned precisely when no interval
contains it.  The 3-period variant instead defaults out-of-range ballots
into `P3` (see `c4_counterexample`). -/
theorem c4_partition_exact (d : Nat) :
    (classify_vote_by_period (some d) = "P1" ↔
      encodeDate 2018 3 11 ≤ d ∧ d < encodeDate 2018 11 1) ∧
    (classify_vote_by_period (some d) = "P2" ↔
      encodeDate 2018 11 1 ≤ d ∧ d < encodeDate 2019 6 20) ∧
    (classify_vote_by_period (some d) = "P3" ↔
      encodeDate 2019 6 20 ≤ d ∧ d < encodeDate 2020 2 10) ∧
    (classify_vote_by_period (some d) = "P4" ↔
      encodeDate 2020 2 10 ≤ d ∧ d < encodeDate 2020 10 1) ∧
    (classify_vote_by_period (some d) = "P5" ↔
      encodeDate 2020 10 1 ≤ d ∧ d < encodeDate 2022 3 10) ∧
    (classify_vote_by_period (some d) = "UNKNOWN" ↔
      d < encodeDate 2018 3 11 ∨ encodeDate 2022 3 10 ≤ d) ∧
    (assign_vote_period (some d) = some "P1" ↔
      encodeDate 2018 1 1 ≤ d ∧ d ≤ encodeDate 2018 12 31) ∧
    (assign_vote_period (some d) = some "P2" ↔
      encodeDate 2019 1 1 ≤ d ∧ d ≤ encodeDate 2019 12 31) ∧
    (assign_vote_period (some d) = some "P3" ↔
      encodeDate 2020 1 1 ≤ d ∧ d ≤ encodeDate 2020 6 30) ∧
    (assign_vote_period (some d) = some "P4" ↔
      encodeDate 2020 7 1 ≤ d ∧ d ≤ encodeDate 2020 12 31) ∧
    (assign_vote_period (some d) = some "P5" ↔
      encodeDate 2021 1 1 ≤ d ∧ d ≤ encodeDate 2021 12 31) ∧
    (assign_vote_period (some d) = none ↔
      ¬((encodeDate 2018 1 1 ≤ d ∧ d ≤ encodeDate 2018 12 31) ∨
        (encodeDate 2019 1 1 ≤ d ∧ d ≤ encodeDate 2019 12 31) ∨
        (encodeDate 2020 1 1 ≤ d ∧ d ≤ encodeDate 2020 6 30) ∨
        (encodeDate 2020 7 1 ≤ d ∧ d ≤ encodeDate 2020 12 31) ∨
        (encodeDate 2021 1 1 ≤ d ∧ d ≤ encodeDate 2021 12 31))) := by
  refine ⟨?_, ?_, ?_, ?_, ?_, ?_, ?_, ?_, ?_, ?_, ?_, ?_⟩ <;>
    · simp only [classify_vote_by_period, assign_vote_period, encodeDate]
      norm_num
      split_ifs <;> simp_all <;> omega

/-- Witness for `c4_partition_exact`: 2019-01-15 falls in P2's interval of
both 5-period partitionings and is assigned `P2` by both. -/
theorem c4_partition_witness :
    classify_vote_by_period (some (encodeDate 2019 1 15)) = "P2" ∧
    assign_vote_period (some (encodeDate 2019 1 15)) = some "P2" :=
  ⟨(c4_partition_exact (encodeDate 2019 1 15)).2.1.mpr (by decide),
    (c4_partition_exact (encodeDate 2019 1 15)).2.2.2.2.2.2.2.1.mpr (by decide)⟩

/-! ## C2: the result cache

The `dwnominate_calculations` MongoDB collection is embedded as a list of
`(result_hash, document)` pairs together with a flag recording whether the
unique index on `result_hash` (created by `create_wnominate_indexes`,
src/wnominate_api.py lines 140-161) exists.  `insert_one` raises a duplicate
key error exactly when the unique index is present and the hash already has
an entry; `store_wnominate_result` (lines 92-137) wraps the insert in a
`try/except` that prints the error and returns `False`, so the function
itself never raises.  The stored document is abstracted to a type parameter
`R`; its fields other than `result_hash` play no role in the claims. -/

structure CacheState (R : Type) where
  docs : List (String × R)
  uniqueIndex : Bool

/-- Does the collection already contain a document with this `result_hash`? -/
def hashPresent {R : Type} (s : CacheState R) (h : String) : Bool :=
  s.docs.any (fun p => p.1 == h)

/-- Embedding of `create_wnominate_indexes`: creates the unique index on `result_hash`. -/
def create_wnominate_indexes {R : Type} (s : CacheState R) : CacheState R :=
  ⟨s.docs, true⟩

/-- Embedding of `results_collection.insert_one(result_document)`: appends the document,
except that with the unique index in place a duplicate `result_hash` raises
a duplicate-key error and leaves the collection unchanged. -/
def insert_one {R : Type} (s : CacheState R) (h : String) (doc : R) :
    Except String (CacheState R) :=
  if s.uniqueIndex && hashPresent s h then .error "DuplicateKeyError"
  else .ok ⟨s.docs ++ [(h, doc)], s.uniqueIndex⟩

/-- Embedding of `store_wnominate_result`: tries the insert; any exception is caught
(`except Exception as e: print(...); return False`), so the call returns
`False` with the collection unchanged instead of propagating the error. -/
def store_wnominate_result {R : Type} (s : CacheState R) (h : String) (doc : R) :
    Except String (Bool × CacheState R) :=
  match insert_one s h doc with
  | .error _ => .ok (false, s)
  | .ok s' => .ok (true, s')

/-- C2 (counterexample).  A second store under a fingerprint that already has
an entry does not raise `DuplicateFingerprint` to the caller: with the unique
index in place, `store_wnominate_result` catches the underlying duplicate-key
error and returns normally with `False` (here on a cache already holding
`("abc", 0)`), leaving the collection unchanged. -/
theorem c2_counterexample :
    store_wnominate_result (⟨[("abc", 0)], true⟩ : CacheState Nat) "abc" 1
      = .ok (false, ⟨[("abc", 0)], true⟩) := by
  rfl

/-- C2 (amended).  With the unique index on `result_hash` in place, a store
under an already-present fingerprint *fails* - but by returning `False` with
the collection unchanged (the caught duplicate-key error), not by raising to
the caller.  The existing entry is never overwritten (every prior document
survives any store), and at-most-one-result-per-fingerprint is preserved:
if the hashes were duplicate-free before a store they remain so after. -/
theorem c2_store_write_once {R : Type} (s : CacheState R) (h : String) (d : R)
    (hidx : s.uniqueIndex = true) :
    (hashPresent s h = true → store_wnominate_result s h d = .ok (false, s)) ∧
    (∀ b s', store_wnominate_result s h d = .ok (b, s') →
      ∀ p ∈ s.docs, p ∈ s'.docs) ∧
    (∀ b s', store_wnominate_result s h d = .ok (b, s') →
      (s.docs.map Prod.fst).Nodup → (s'.docs.map Prod.fst).Nodup) := by
  refine ⟨fun hp => ?_, fun b s' heq p hp => ?_, fun b s' heq hnd => ?_⟩
  · simp [store_wnominate_result, insert_one, hidx, hp]
  · by_cases hdup : hashPresent s h = true
    · simp only [store_wnominate_result, insert_one, hidx, hdup, Bool.and_self] at heq
      cases heq
      exact hp
    · simp only [store_wnominate_result, insert_one, hidx, hdup, Bool.and_false,
        Bool.true_and] at heq
      cases heq
      exact List.mem_append_left _ hp
  · by_cases hdup : hashPresent s h = true
    · simp only [store_wnominate_result, insert_one, hidx, hdup, Bool.and_self] at heq
      cases heq
      exact hnd
    · simp only [store_wnominate_result, insert_one, hidx, hdup, Bool.and_false,
        Bool.true_and] at heq
      cases heq
      have hnotin : h ∉ s.docs.map Prod.fst := by
        intro hmem
        obtain ⟨p, hpmem, hpeq⟩ := List.mem_map.mp hmem
        exact hdup (List.any_eq_true.mpr ⟨p, hpmem, by simp [hpeq]⟩)
      simp only [List.map_append, List.map_cons, List.map_nil]
      exact List.Nodup.append hnd (List.nodup_singleton h)
        (by simpa [List.disjoint_singleton] using hnotin)

/-- Witness for `c2_store_write_once`: on a cache with the unique index and
an entry under `"k"`, a second store under `"k"` returns `False` and leaves
the cache unchanged. -/
theorem c2_store_witness :
    hashPresent (⟨[("k", 5)], true⟩ : CacheState Nat) "k" = true ∧
    store_wnominate_result (⟨[("k", 5)], true⟩ : CacheState Nat) "k" 7
      = .ok (false, ⟨[("k", 5)], true⟩) :=
  ⟨by decide, (c2_store_write_once (⟨[("k", 5)], true⟩ : CacheState Nat) "k" 7 rfl).1
    (by decide)⟩

/-! ## C7 and C9: the payload builder and cast normalization

`generate_payload` (src/wnominate_api.py, lines 197-408) is embedded over an
abstract snapshot of the MongoDB collections: the set of votacion ids present
in `votaciones`, their dates, the per-votacion `detalle` documents of
`VotosDiputados` (an association from legislator id to raw cast code), and
the roster of `parlamentarios`.  The random `idpt` initialization and the
constant `bp`/`bw` defaults carry no cast values and are not modelled. -/

structure VoteDB where
  votaciones : List Int
  fecha : Int → Option Int
  detalle : Int → Option (List (Int × Int))
  diputados : List Int

/-- The payload's `votes` entry: one `(votation id, [(mapped cast, member)])`
per processed votacion, in processing order. -/
structure Payload where
  votes : List (Int × List (Int × Int))
deriving DecidableEq

/-- Embedding of `mapear_voto` (src/wnominate_api.py, lines 411-431): raw code 1 is Yea
(1), raw code 0 is Nay (0), everything else degrades to 9. -/
def mapear_voto (valor : Int) : Int :=
  if valor = 1 then 1 else if valor = 0 then 0 else 9

/-- Embedding of `detalle.get(dip_id_str, 2)`: look the legislator up in the detail
document, defaulting to raw code 2 (abstention/absent) when missing. -/
def detalleGet (det : List (Int × Int)) (dip : Int) : Int :=
  match det.find? (fun p => p.1 == dip) with
  | some p => p.2
  | none => 2

/-- Embedding of `generate_payload`: the requested ids are matched against `votaciones`
(a run with no match at all raises `ValueError`), ordered by `fecha` when
every matched votacion has one (a stable sort, embedded as insertion sort),
and each votacion lacking a `VotosDiputados` detail document is skipped with
a printed warning (`if not voto_doc: ... continue`); for the rest, every
enrolled legislator contributes `mapear_voto(detalle.get(dip, 2))`. -/
def generate_payload (votationIds : List Int) (db : VoteDB) : Except String Payload :=
  let matched := votationIds.filter (fun v => decide (v ∈ db.votaciones))
  if matched = [] then .error "No se encontraron votaciones para los IDs" else
  let ordered := if matched.all (fun v => (db.fecha v).isSome)
    then matched.insertionSort (fun a b => (db.fecha a).getD 0 ≤ (db.fecha b).getD 0)
    else matched
  .ok ⟨ordered.filterMap (fun v =>
    match db.detalle v with
    | none => none
    | some det =>
        some (v, db.diputados.map (fun dip => (mapear_voto (detalleGet det dip), dip))))⟩

/-- Database snapshot with two requested ballots of which ballot 2 has no
detail document at all. -/
def exDB : VoteDB where
  votaciones := [1, 2]
  fecha := fun v => some v
  detalle := fun v => if v = 1 then some [(100, 1), (101, 0)] else none
  diputados := [100, 101]

/-- C7 (counterexample).  A requested ballot with no matched detail record
does not make the builder fail: on `exDB`, ballot 2 has no detail document,
yet `generate_payload` returns successfully and silently omits ballot 2 from
the payload. -/
theorem c7_counterexample :
    exDB.detalle 2 = none ∧
    generate_payload [1, 2] exDB = .ok ⟨[(1, [(1, 100), (0, 101)])]⟩ := by
  constructor
  · decide
  · rfl

/-- C7 (amended).  `generate_payload` raises only when *no* requested ballot
matches the `votaciones` collection at all; a matched ballot whose detail
document is missing is skipped with a warning and omitted from the payload
(it never appears among the payload's votes), rather than failing the run. -/
theorem c7_missing_detail_skipped (votationIds : List Int) (db : VoteDB) :
    ((∃ e, generate_payload votationIds db = .error e) ↔
      votationIds.filter (fun v => decide (v ∈ db.votaciones)) = []) ∧
    (∀ pay, generate_payload votationIds db = .ok pay →
      ∀ vp ∈ pay.votes, (db.detalle vp.1).isSome = true) ∧
    (∀ pay, generate_payload votationIds db = .ok pay →
      ∀ v : Int, db.detalle v = none → v ∉ pay.votes.map Prod.fst) := by
  by_cases hm : votationIds.filter (fun v => decide (v ∈ db.votaciones)) = []
  · have herr : generate_payload votationIds db
        = .error "No se encontraron votaciones para los IDs" := by
      simp only [generate_payload]
      rw [if_pos hm]
    refine ⟨⟨fun _ => hm, fun _ => ⟨_, herr⟩⟩, fun pay hpay => ?_, fun pay hpay => ?_⟩
    · rw [herr] at hpay
      exact Except.noConfusion hpay
    · rw [herr] at hpay
      exact Except.noConfusion hpay
  · have hvotes : ∀ pay, generate_payload votationIds db = .ok pay →
        ∀ vp ∈ pay.votes, (db.detalle vp.1).isSome = true := by
      intro pay hpay vp hvp
      simp only [generate_payload] at hpay
      rw [if_neg hm] at hpay
      cases hpay
      obtain ⟨v0, _, hf⟩ := List.mem_filterMap.mp hvp
      cases hdet : db.detalle v0 with
      | none => rw [hdet] at hf; cases hf
      | some det =>
          rw [hdet] at hf
          cases hf
          simp [hdet]
    refine ⟨⟨fun he => ?_, fun h => absurd h hm⟩, hvotes, fun pay hpay v hdet hv => ?_⟩
    · obtain ⟨e, he⟩ := he
      simp only [generate_payload] at he
      rw [if_neg hm] at he
      exact Except.noConfusion he
    · obtain ⟨vp, hvp, hfst⟩ := List.mem_map.mp hv
      have hs := hvotes pay hpay vp hvp
      rw [hfst, hdet] at hs
      exact Bool.noConfusion hs

/-- Witness for `c7_missing_detail_skipped` on `exDB`: ballot 2, whose
detail document is missing, is absent from the produced payload. -/
theorem c7_skip_witness :
    ∀ pay, generate_payload [1, 2] exDB = .ok pay →
      (2 : Int) ∉ pay.votes.map Prod.fst := fun pay hpay =>
  (c7_missing_detail_skipped [1, 2] exDB).2.2 pay hpay 2 (by decide)

/-- Vote mapping of src/rnominate_interface.py (lines 121-149): the explicit
dictionary `{1: 1, 0: 0, 2: 9, 3: 9, 4: 9}` applied by `df['vote'].map`,
giving `NaN` (here `none`) on any unmapped code. -/
def vote_mapping (v : Int) : Option Int :=
  (([(1, 1), (0, 0), (2, 9), (3, 9), (4, 9)] : List (Int × Int)).find?
    (fun p => p.1 == v)).map (fun p => p.2)

/-- Embedding of `df['vote_numeric'].fillna(9)`: unmapped codes degrade to 9 instead of
raising. -/
def vote_numeric (v : Int) : Int :=
  (vote_mapping v).getD 9

/-- C9.  Raw-cast normalization is total into `{0, 1, 9}`: `mapear_voto`
sends 1 to 1, 0 to 0 and every other raw code to 9; the R-interface mapping
with its `fillna(9)` lands in the same domain; and consequently every cast
entry of a payload built by `generate_payload` - including the entries
produced for legislators missing from a ballot's detail document, which
default to raw code 2 - is 0, 1 or 9. -/
theorem c9_cast_domain :
    (∀ v : Int, mapear_voto v = 0 ∨ mapear_voto v = 1 ∨ mapear_voto v = 9) ∧
    (mapear_voto 1 = 1 ∧ mapear_voto 0 = 0) ∧
    (∀ v : Int, v ≠ 1 → v ≠ 0 → mapear_voto v = 9) ∧
    (∀ v : Int, vote_numeric v = 0 ∨ vote_numeric v = 1 ∨ vote_numeric v = 9) ∧
    (∀ (votationIds : List Int) (db : VoteDB) (pay : Payload),
      generate_payload votationIds db = .ok pay →
      ∀ vp ∈ pay.votes, ∀ e ∈ vp.2, e.1 = 0 ∨ e.1 = 1 ∨ e.1 = 9) := by
  have hmap : ∀ v : Int, mapear_voto v = 0 ∨ mapear_voto v = 1 ∨ mapear_voto v = 9 := by
    intro v
    unfold mapear_voto
    split_ifs <;> simp
  refine ⟨hmap, ⟨rfl, rfl⟩, fun v h1 h0 => ?_, fun v => ?_, ?_⟩
  · unfold mapear_voto
    rw [if_neg h1, if_neg h0]
  · by_cases h1 : v = 1
    · subst h1; right; left; decide
    · by_cases h0 : v = 0
      · subst h0; left; decide
      · by_cases h2 : v = 2
        · subst h2; right; right; decide
        · by_cases h3 : v = 3
          · subst h3; right; right; decide
          · by_cases h4 : v = 4
            · subst h4; right; right; decide
            · right; right
              have hfind : List.find? (fun p => p.1 == v)
                  ([(1, 1), (0, 0), (2, 9), (3, 9), (4, 9)] : List (Int × Int))
                    = none := by
                apply List.find?_eq_none.mpr
                intro p hp
                simp only [List.mem_cons, List.not_mem_nil, or_false] at hp
                rcases hp with rfl | rfl | rfl | rfl | rfl <;>
                  simp only [beq_iff_eq] <;> omega
              unfold vote_numeric vote_mapping
              rw [hfind]
              rfl
  · intro votationIds db pay hpay vp hvp e he
    by_cases hm : votationIds.filter (fun v => decide (v ∈ db.votaciones)) = []
    · simp only [generate_payload] at hpay
      rw [if_pos hm] at hpay
      exact Except.noConfusion hpay
    · simp only [generate_payload] at hpay
      rw [if_neg hm] at hpay
      cases hpay
      obtain ⟨v0, _, hf⟩ := List.mem_filterMap.mp hvp
      cases hdet : db.detalle v0 with
      | none => rw [hdet] at hf; cases hf
      | some det =>
          rw [hdet] at hf
          cases hf
          obtain ⟨dip, _, hdip⟩ := List.mem_map.mp he
          rw [← hdip]
          exact hmap (detalleGet det dip)

/-- Witness for `c9_cast_domain`: raw code 7 (an unmapped cast) degrades to
9 in both mappings, and the payload built over `exDB` stays in the domain. -/
theorem c9_cast_witness :
    mapear_voto 7 = 9 ∧
    (vote_numeric 7 = 0 ∨ vote_numeric 7 = 1 ∨ vote_numeric 7 = 9) ∧
    ∀ vp ∈ (⟨[(1, [(1, 100), (0, 101)])]⟩ : Payload).votes,
      ∀ e ∈ vp.2, e.1 = 0 ∨ e.1 = 1 ∨ e.1 = 9 :=
  ⟨c9_cast_domain.2.2.1 7 (by decide) (by decide), c9_cast_domain.2.2.2.1 7,
    c9_cast_domain.2.2.2.2 [1, 2] exDB _ rfl⟩

/-! ## C8 and C10: the polarity normalizer

`apply_polarity_correction` (src/wnominate_api.py, lines 434-558) is embedded
over the list of ideal points (member id with a 2-dimensional coordinate,
floats modelled as rationals) and a party-lookup function abstracting the
`parlamentarios` query (`none` when the member id is non-numeric or no
`periodo` entry carries a `partido`).  Every coordinate record has both
dimensions, so the `len(coords) >= 2` guard always passes. -/

/-- Parties expected on the negative (left) side of the first axis. -/
def left_wing_parties : List String := ["PC", "PS", "PPD", "RD", "PH", "COM", "PEV"]

/-- Parties expected on the positive (right) side of the first axis. -/
def right_wing_parties : List String := ["UDI", "RN", "EVOP"]

/-- Does some estimated member belong to party `p` (i.e. is `p` a key of
`party_means`)? -/
def partyPresent (idpt : List (Int × ℚ × ℚ)) (party : Int → Option String)
    (p : String) : Bool :=
  idpt.any (fun m => party m.1 == some p)

/-- Number of members contributing to party `p` (`party_counts[p]`). -/
def partyCount (idpt : List (Int × ℚ × ℚ)) (party : Int → Option String)
    (p : String) : Nat :=
  (idpt.filter (fun m => party m.1 == some p)).length

/-- Party mean on the first dimension (`party_means[p][0]` after the
division by `party_counts[p]`). -/
def partyMean1 (idpt : List (Int × ℚ × ℚ)) (party : Int → Option String)
    (p : String) : ℚ :=
  ((idpt.filter (fun m => party m.1 == some p)).map (fun m => m.2.1)).sum
    / (partyCount idpt party p : ℚ)

/-- Party mean on the second dimension (`party_means[p][1]` after the
division). -/
def partyMean2 (idpt : List (Int × ℚ × ℚ)) (party : Int → Option String)
    (p : String) : ℚ :=
  ((idpt.filter (fun m => party m.1 == some p)).map (fun m => m.2.2)).sum
    / (partyCount idpt party p : ℚ)

/-- Embedding of `np.mean([party_means[p][0] for p in left_wing_parties if p in
party_means])`: `none` models the `NaN` produced on an empty list. -/
def leftMeanDim1 (idpt : List (Int × ℚ × ℚ)) (party : Int → Option String) :
    Option ℚ :=
  let ps := left_wing_parties.filter (partyPresent idpt party)
  if ps = [] then none
  else some ((ps.map (partyMean1 idpt party)).sum / (ps.length : ℚ))

/-- Mean of the first-dimension means of the present right-wing parties. -/
def rightMeanDim1 (idpt : List (Int × ℚ × ℚ)) (party : Int → Option String) :
    Option ℚ :=
  let ps := right_wing_parties.filter (partyPresent idpt party)
  if ps = [] then none
  else some ((ps.map (partyMean1 idpt party)).sum / (ps.length : ℚ))

/-- Second-dimension analogue of `leftMeanDim1`.  The source accumulates the
dim-2 sums in `party_means[...][1]` but never aggregates or compares them;
this definition states what the specification's per-axis flip rule would
compare on the second axis. -/
def specLeftMeanDim2 (idpt : List (Int × ℚ × ℚ)) (party : Int → Option String) :
    Option ℚ :=
  let ps := left_wing_parties.filter (partyPresent idpt party)
  if ps = [] then none
  else some ((ps.map (partyMean2 idpt party)).sum / (ps.length : ℚ))

/-- Second-dimension analogue of `rightMeanDim1`, see `specLeftMeanDim2`. -/
def specRightMeanDim2 (idpt : List (Int × ℚ × ℚ)) (party : Int → Option String) :
    Option ℚ :=
  let ps := right_wing_parties.filter (partyPresent idpt party)
  if ps = [] then none
  else some ((ps.map (partyMean2 idpt party)).sum / (ps.length : ℚ))

/-- The flag `flip_dim1`: set exactly when both bloc means exist (neither `NaN`) and
`left_mean_dim1 > right_mean_dim1`. -/
def flip_dim1 (idpt : List (Int × ℚ × ℚ)) (party : Int → Option String) : Bool :=
  match leftMeanDim1 idpt party, rightMeanDim1 idpt party with
  | some l, some r => decide (r < l)
  | _, _ => false

/-- The flag `flip_dim2 = False` (src/wnominate_api.py line 512); no code path ever
sets it. -/
def flip_dim2 : Bool := false

/-- Value-level `apply_polarity_correction`: when some flip flag is set,
each coordinate has its first (resp. second) component negated if the
corresponding flag is set; otherwise the results are returned unchanged. -/
def apply_polarity_correction (idpt : List (Int × ℚ × ℚ))
    (party : Int → Option String) : List (Int × ℚ × ℚ) :=
  if flip_dim1 idpt party || flip_dim2 then
    idpt.map (fun m =>
      (m.1, (if flip_dim1 idpt party then -m.2.1 else m.2.1),
            (if flip_dim2 then -m.2.2 else m.2.2)))
  else idpt

/-- Ideal points for the polarity counterexample: member 1 (left wing) at
(1, 5), member 2 (right wing) at (2, -3). -/
def exIdpt : List (Int × ℚ × ℚ) := [(1, 1, 5), (2, 2, -3)]

/-- Party lookup for the polarity examples: member 1 is PS, member 2 UDI. -/
def exParty : Int → Option String :=
  fun i => if i = 1 then some "PS" else if i = 2 then some "UDI" else none

/-- C8 (counterexample).  On `exIdpt` the left bloc's second-dimension mean
(5) exceeds the right bloc's (-3), so per the claim the second axis should
be sign-flipped; but the correction returns the coordinates unchanged (the
first-axis means are in the expected order and `flip_dim2` is constantly
false), member 1 keeping second coordinate 5 rather than -5. -/
theorem c8_counterexample :
    specLeftMeanDim2 exIdpt exParty = some 5 ∧
    specRightMeanDim2 exIdpt exParty = some (-3) ∧
    apply_polarity_correction exIdpt exParty = exIdpt := by
  refine ⟨?_, ?_, ?_⟩
  · simp [specLeftMeanDim2, partyMean2, partyCount, partyPresent, exIdpt, exParty,
      left_wing_parties]
  · simp [specRightMeanDim2, partyMean2, partyCount, partyPresent, exIdpt, exParty,
      right_wing_parties]
  · have hflip : flip_dim1 exIdpt exParty = false := by
      simp [flip_dim1, leftMeanDim1, rightMeanDim1, partyMean1, partyCount,
        partyPresent, exIdpt, exParty, left_wing_parties, right_wing_parties]
    simp [apply_polarity_correction, hflip, flip_dim2]

/-- C8 (amended).  Only the first axis is subject to polarity correction:
the first axis is flipped across all legislators precisely when both bloc
means exist and the left (expected-negative) bloc's first-dimension mean
exceeds the right bloc's, with at most that one flip; the second flip flag
is constantly false, so second-axis coordinates are always returned
unchanged. -/
theorem c8_first_axis_only (idpt : List (Int × ℚ × ℚ))
    (party : Int → Option String) :
    (flip_dim1 idpt party = true ↔
      ∃ l r, leftMeanDim1 idpt party = some l ∧ rightMeanDim1 idpt party = some r ∧
        r < l) ∧
    ((apply_polarity_correction idpt party).map (fun m => (m.1, m.2.2))
      = idpt.map (fun m => (m.1, m.2.2))) ∧
    (flip_dim1 idpt party = true →
      apply_polarity_correction idpt party
        = idpt.map (fun m => (m.1, -m.2.1, m.2.2))) ∧
    (flip_dim1 idpt party = false → apply_polarity_correction idpt party = idpt) := by
  refine ⟨?_, ?_, fun hflip => ?_, fun hflip => ?_⟩
  · unfold flip_dim1
    cases hl : leftMeanDim1 idpt party with
    | none => simp
    | some l =>
        cases hr : rightMeanDim1 idpt party with
        | none => simp
        | some r => simp
  · by_cases hflip : flip_dim1 idpt party = true
    · simp [apply_polarity_correction, hflip, flip_dim2, List.map_map, Function.comp]
    · simp only [Bool.not_eq_true] at hflip
      simp [apply_polarity_correction, hflip, flip_dim2]
  · simp [apply_polarity_correction, hflip, flip_dim2]
  · simp [apply_polarity_correction, hflip, flip_dim2]

/-- Witness for `c8_first_axis_only` at `exIdpt`: the correction leaves the
second-dimension coordinates untouched. -/
theorem c8_axis_witness :
    (apply_polarity_correction exIdpt exParty).map (fun m => (m.1, m.2.2))
      = exIdpt.map (fun m => (m.1, m.2.2)) :=
  (c8_first_axis_only exIdpt exParty).2.1

/-! ### C10: in-place mutation of the coordinate lists

The flip loop `coords[0] = -coords[0]` mutates the Python list objects held
by `results['idpt']`; `results.copy()` is a *shallow* dict copy, so the
returned dictionary references the very same coordinate lists.  This is
embedded with an explicit heap: the idpt dictionary maps member ids to heap
addresses of coordinate lists. -/

/-- A store of Python list objects: address to coordinate list. -/
def Heap : Type := Nat → List ℚ

/-- The caller's results object: the idpt dictionary as member-id/address
pairs. -/
structure ResultsObj where
  idpt : List (Int × Nat)

/-- Write one heap cell. -/
def heapUpdate (h : Heap) (a : Nat) (v : List ℚ) : Heap :=
  fun b => if b = a then v else h b

/-- The statement `coords[0] = -coords[0]` on one coordinate-list object. -/
def negHead : List ℚ → List ℚ
  | [] => []
  | x :: rest => (-x) :: rest

/-- One iteration of the flip loop: negate the first coordinate of the list
stored at address `a`, in place. -/
def flipStep (h : Heap) (a : Nat) : Heap :=
  heapUpdate h a (negHead (h a))

/-- Dereference a results object into the value-level ideal points (the
second coordinate defaults to 0 only off the two-dimensional invariant). -/
def coordsOf (h : Heap) (r : ResultsObj) : List (Int × ℚ × ℚ) :=
  r.idpt.map (fun p => (p.1, (h p.2).getD 0 0, (h p.2).getD 1 0))

/-- Stateful `apply_polarity_correction`: when a flip applies, the loop
mutates every referenced coordinate list in place (`flip_dim2` being
constantly false, only the first coordinate is negated), and the returned
object is the shallow copy sharing the caller's idpt entries; otherwise heap
and object are untouched. -/
def apply_polarity_correction_state (r : ResultsObj) (party : Int → Option String)
    (h : Heap) : ResultsObj × Heap :=
  if flip_dim1 (coordsOf h r) party || flip_dim2 then
    (r, r.idpt.foldl (fun hh p => flipStep hh p.2) h)
  else (r, h)

/-- Addresses not referenced by any processed entry are untouched by the
flip loop. -/
theorem foldFlip_not_mem (l : List (Int × Nat)) (h : Heap) (a : Nat)
    (ha : a ∉ l.map Prod.snd) :
    l.foldl (fun hh p => flipStep hh p.2) h a = h a := by
  induction l generalizing h with
  | nil => rfl
  | cons q rest ih =>
      simp only [List.map_cons, List.mem_cons, not_or] at ha
      rw [List.foldl_cons, ih _ ha.2]
      simp [flipStep, heapUpdate, ha.1]

/-- When the referenced addresses are distinct, the flip loop negates the
head of every referenced list exactly once. -/
theorem foldFlip_mem (l : List (Int × Nat)) (h : Heap)
    (hnd : (l.map Prod.snd).Nodup) :
    ∀ p ∈ l, l.foldl (fun hh p => flipStep hh p.2) h p.2 = negHead (h p.2) := by
  induction l generalizing h with
  | nil => intro p hp; cases hp
  | cons q rest ih =>
      simp only [List.map_cons, List.nodup_cons] at hnd
      intro p hp
      rcases List.mem_cons.mp hp with rfl | hp'
      · rw [List.foldl_cons, foldFlip_not_mem rest _ p.2 hnd.1]
        simp [flipStep, heapUpdate]
      · rw [List.foldl_cons, ih _ hnd.2 p hp']
        have hne : p.2 ≠ q.2 := by
          intro heq
          exact hnd.1 (heq ▸ List.mem_map_of_mem Prod.snd hp')
        simp [flipStep, heapUpdate, hne]

/-- C10.  When the polarity correction flips, it mutates the caller's
coordinate lists in place: the returned dictionary is the shallow copy
sharing the input's idpt references, every referenced list has its first
coordinate negated in the final heap, and whenever that coordinate was
nonzero the list object the caller still references no longer holds its
raw value. -/
theorem c10_inplace_mutation (r : ResultsObj) (party : Int → Option String)
    (h : Heap) (hnd : (r.idpt.map Prod.snd).Nodup)
    (hflip : flip_dim1 (coordsOf h r) party = true) :
    (apply_polarity_correction_state r party h).1 = r ∧
    (∀ p ∈ r.idpt,
      (apply_polarity_correction_state r party h).2 p.2 = negHead (h p.2)) ∧
    (∀ p ∈ r.idpt, (h p.2).getD 0 0 ≠ 0 →
      (apply_polarity_correction_state r party h).2 p.2 ≠ h p.2) := by
  have happ : apply_polarity_correction_state r party h
      = (r, r.idpt.foldl (fun hh p => flipStep hh p.2) h) := by
    simp [apply_polarity_correction_state, hflip]
  refine ⟨by rw [happ], fun p hp => ?_, fun p hp hx => ?_⟩
  · rw [happ]
    exact foldFlip_mem r.idpt h hnd p hp
  · rw [happ]
    show r.idpt.foldl (fun hh p => flipStep hh p.2) h p.2 ≠ h p.2
    have hmem := foldFlip_mem r.idpt h hnd p hp
    rw [hmem]
    cases hcell : h p.2 with
    | nil => rw [hcell] at hx; simp at hx
    | cons x rest =>
        rw [hcell] at hx
        simp only [List.getD_cons_zero] at hx
        simp only [negHead]
        intro hcontra
        have hxeq : -x = x := by
          have := congrArg (fun l => l.getD 0 0) hcontra
          simpa using this
        have : x = 0 := by linarith [hxeq]
        exact hx this

/-- Witness for `c10_inplace_mutation`: member 1 (PS, first coordinate 3)
and member 2 (UDI, first coordinate 2) trigger a first-axis flip, after
which the list object at member 1's address no longer holds its raw
coordinates. -/
theorem c10_mutation_witness :
    ((apply_polarity_correction_state ⟨[(1, 0), (2, 1)]⟩ exParty
        (fun a => if a = 0 then [3, 5] else if a = 1 then [2, -3] else [])).2 0
      = negHead [3, 5]) ∧
    ((apply_polarity_correction_state ⟨[(1, 0), (2, 1)]⟩ exParty
        (fun a => if a = 0 then [3, 5] else if a = 1 then [2, -3] else [])).2 0
      ≠ [3, 5]) := by
  have hnd : (([(1, 0), (2, 1)] : List (Int × Nat)).map Prod.snd).Nodup := by decide
  have hflip : flip_dim1 (coordsOf
      (fun a => if a = 0 then [3, 5] else if a = 1 then [2, -3] else [])
      ⟨[(1, 0), (2, 1)]⟩) exParty = true := by
    simp [flip_dim1, leftMeanDim1, rightMeanDim1, partyMean1, partyCount,
      partyPresent, coordsOf, exParty, left_wing_parties, right_wing_parties]
    norm_num
  have hthm := c10_inplace_mutation ⟨[(1, 0), (2, 1)]⟩ exParty
    (fun a => if a = 0 then [3, 5] else if a = 1 then [2, -3] else []) hnd hflip
  refine ⟨?_, ?_⟩
  · have := hthm.2.1 (1, 0) (by decide)
    simpa using this
  · have := hthm.2.2 (1, 0) (by decide) (by norm_num)
    simpa using this

/-! ## C6: the fingerprint function

`generate_vote_hash` (src/wnominate_api.py, lines 63-89) sorts the votacion
ids, joins their decimal renderings with commas, and, when parameters are
given, appends `"|"` followed by the comma-joined `"key:value"` entries of
the parameters sorted as Python tuples.  Python strings are embedded as
`List Char` and `str(n)` as the decimal rendering below; the final SHA-256
digest is deterministic, so the theorems are stated on the canonical
pre-digest string (the digest is modelled as the identity on it: equal
strings give equal digests, and distinct strings give distinct digests up to
the collision-resistance of SHA-256, which lies outside the embedding). -/

/-- Decimal digits of `n`, most significant first; structural recursion on a
fuel argument that always suffices (see `pyStrNat`). -/
def toDecAux : Nat → Nat → List Char
  | 0, _ => []
  | fuel + 1, n =>
    if n < 10 then [Nat.digitChar n]
    else toDecAux fuel (n / 10) ++ [Nat.digitChar (n % 10)]

/-- Python's `str(n)` for a natural number. -/
def pyStrNat (n : Nat) : List Char :=
  toDecAux (n + 1) n

/-- Numeric value of a decimal digit character. -/
def digitVal (c : Char) : Nat := c.toNat - 48

/-- Value of a most-significant-first digit string. -/
def evalDec (l : List Char) : Nat :=
  l.foldl (fun a c => 10 * a + digitVal c) 0

theorem evalDec_append_singleton (xs : List Char) (c : Char) :
    evalDec (xs ++ [c]) = 10 * evalDec xs + digitVal c := by
  unfold evalDec
  rw [List.foldl_append]
  rfl

theorem digitVal_digitChar : ∀ d < 10, digitVal (Nat.digitChar d) = d := by decide

theorem digitChar_isDigit : ∀ d < 10, (Nat.digitChar d).isDigit = true := by decide

theorem toDecAux_eval : ∀ fuel n, n < fuel → evalDec (toDecAux fuel n) = n := by
  intro fuel
  induction fuel with
  | zero => intro n h; omega
  | succ f ih =>
      intro n h
      by_cases h10 : n < 10
      · simp only [toDecAux, if_pos h10]
        have := digitVal_digitChar n h10
        simp [evalDec, this]
      · have hn0 : 0 < n := by omega
        have hdiv : n / 10 < f := by
          have h1 := Nat.div_lt_self hn0 (by norm_num : (1 : Nat) < 10)
          omega
        simp only [toDecAux, if_neg h10]
        rw [evalDec_append_singleton, ih (n / 10) hdiv,
          digitVal_digitChar (n % 10) (Nat.mod_lt n (by norm_num))]
        omega

theorem pyStrNat_eval (n : Nat) : evalDec (pyStrNat n) = n :=
  toDecAux_eval (n + 1) n (by omega)

theorem pyStrNat_inj : Function.Injective pyStrNat := fun a b h => by
  rw [← pyStrNat_eval a, ← pyStrNat_eval b, h]

theorem toDecAux_isDigit : ∀ fuel n, ∀ c ∈ toDecAux fuel n, c.isDigit = true := by
  intro fuel
  induction fuel with
  | zero => intro n c hc; cases hc
  | succ f ih =>
      intro n c hc
      by_cases h10 : n < 10
      · simp only [toDecAux, if_pos h10, List.mem_singleton] at hc
        exact hc ▸ digitChar_isDigit n h10
      · simp only [toDecAux, if_neg h10, List.mem_append, List.mem_singleton] at hc
        rcases hc with hc | hc
        · exact ih (n / 10) c hc
        · exact hc ▸ digitChar_isDigit (n % 10) (Nat.mod_lt n (by omega))

theorem pyStrNat_ne_nil (n : Nat) : pyStrNat n ≠ [] := by
  unfold pyStrNat toDecAux
  split_ifs <;> simp

/-- Python's `str(i)` for an integer: a minus sign before the digits of the
absolute value when negative. -/
def pyStrInt (i : Int) : List Char :=
  if i < 0 then '-' :: pyStrNat i.natAbs else pyStrNat i.toNat

theorem pyStrNat_head_digit (n : Nat) :
    ∃ c cs, pyStrNat n = c :: cs ∧ c.isDigit = true := by
  cases hh : pyStrNat n with
  | nil => exact absurd hh (pyStrNat_ne_nil n)
  | cons c cs =>
      refine ⟨c, cs, rfl, toDecAux_isDigit (n + 1) n c ?_⟩
      rw [show toDecAux (n + 1) n = pyStrNat n from rfl, hh]
      exact List.mem_cons_self c cs

theorem pyStrInt_inj : Function.Injective pyStrInt := by
  intro a b h
  unfold pyStrInt at h
  split_ifs at h with ha hb hb
  · injection h with _ h2
    have := pyStrNat_inj h2
    omega
  · obtain ⟨c, cs, hcc, hdig⟩ := pyStrNat_head_digit b.toNat
    rw [hcc] at h
    injection h with h1 _
    rw [← h1] at hdig
    exact absurd hdig (by decide)
  · obtain ⟨c, cs, hcc, hdig⟩ := pyStrNat_head_digit a.toNat
    rw [hcc] at h
    injection h with h1 _
    rw [h1] at hdig
    exact absurd hdig (by decide)
  · have := pyStrNat_inj h
    omega

theorem pyStrInt_chars (i : Int) : ∀ c ∈ pyStrInt i, c = '-' ∨ c.isDigit = true := by
  intro c hc
  unfold pyStrInt at hc
  split_ifs at hc
  · rcases List.mem_cons.mp hc with rfl | hc'
    · exact Or.inl rfl
    · exact Or.inr (toDecAux_isDigit _ _ c hc')
  · exact Or.inr (toDecAux_isDigit _ _ c hc)

theorem pyStrInt_noComma (i : Int) : ',' ∉ pyStrInt i := by
  intro hc
  rcases pyStrInt_chars i ',' hc with h | h
  · exact absurd h (by decide)
  · exact absurd h (by decide)

theorem pyStrInt_ne_nil (i : Int) : pyStrInt i ≠ [] := by
  unfold pyStrInt
  split_ifs
  · simp
  · exact pyStrNat_ne_nil _

/-- Embedding of `",".join(strs)`. -/
def joinComma : List (List Char) → List Char
  | [] => []
  | [x] => x
  | x :: xs => x ++ ',' :: joinComma xs

theorem joinComma_cons_ne (x : List Char) (l : List (List Char)) (hl : l ≠ []) :
    joinComma (x :: l) = x ++ ',' :: joinComma l := by
  cases l with
  | nil => exact absurd rfl hl
  | cons y ys => rfl

theorem append_comma_inj : ∀ x y a b : List Char, ',' ∉ x → ',' ∉ y →
    x ++ ',' :: a = y ++ ',' :: b → x = y ∧ a = b := by
  intro x
  induction x with
  | nil =>
      intro y a b _ hy h
      cases y with
      | nil =>
          simp only [List.nil_append] at h
          injection h with _ h2
          exact ⟨rfl, h2⟩
      | cons d ys =>
          simp only [List.nil_append, List.cons_append] at h
          injection h with h1 _
          exact absurd (h1 ▸ List.mem_cons_self d ys) hy
  | cons c xs ih =>
      intro y a b hx hy h
      cases y with
      | nil =>
          simp only [List.nil_append, List.cons_append] at h
          injection h with h1 _
          rw [h1] at hx
          exact absurd (List.mem_cons_self ',' xs) hx
      | cons d ys =>
          simp only [List.cons_append] at h
          injection h with h1 h2
          subst h1
          have hx' : ',' ∉ xs := fun hm => hx (List.mem_cons_of_mem c hm)
          have hy' : ',' ∉ ys := fun hm => hy (List.mem_cons_of_mem c hm)
          obtain ⟨he, ha⟩ := ih ys a b hx' hy' h2
          exact ⟨by rw [he], ha⟩

theorem joinComma_inj : ∀ L1 L2 : List (List Char),
    (∀ s ∈ L1, ',' ∉ s ∧ s ≠ []) → (∀ s ∈ L2, ',' ∉ s ∧ s ≠ []) →
    joinComma L1 = joinComma L2 → L1 = L2 := by
  intro L1
  induction L1 with
  | nil =>
      intro L2 _ h2 h
      cases L2 with
      | nil => rfl
      | cons y ys =>
          cases ys with
          | nil => exact absurd h.symm (h2 y (List.mem_cons_self y _)).2
          | cons z zs =>
              rw [joinComma_cons_ne y (z :: zs) (by simp)] at h
              exact absurd h.symm (by simp [joinComma])
  | cons x xs ih =>
      intro L2 h1 h2 h
      cases L2 with
      | nil =>
          cases xs with
          | nil => exact absurd h (h1 x (List.mem_cons_self x _)).2
          | cons x2 xs2 =>
              rw [joinComma_cons_ne x (x2 :: xs2) (by simp)] at h
              exact absurd h (by simp [joinComma])
      | cons y ys =>
          cases xs with
          | nil =>
              cases ys with
              | nil =>
                  have : x = y := h
                  rw [this]
              | cons z zs =>
                  rw [joinComma_cons_ne y (z :: zs) (by simp)] at h
                  have hcm : ',' ∈ y ++ ',' :: joinComma (z :: zs) :=
                    List.mem_append_right _ (List.mem_cons_self _ _)
                  rw [← h] at hcm
                  exact absurd hcm (h1 x (List.mem_cons_self x _)).1
          | cons x2 xs2 =>
              cases ys with
              | nil =>
                  rw [joinComma_cons_ne x (x2 :: xs2) (by simp)] at h
                  have hcm : ',' ∈ x ++ ',' :: joinComma (x2 :: xs2) :=
                    List.mem_append_right _ (List.mem_cons_self _ _)
                  rw [h] at hcm
                  exact absurd hcm (h2 y (List.mem_cons_self y _)).1
              | cons y2 ys2 =>
                  rw [joinComma_cons_ne x (x2 :: xs2) (by simp),
                    joinComma_cons_ne y (y2 :: ys2) (by simp)] at h
                  obtain ⟨hxy, hrest⟩ := append_comma_inj x y _ _
                    (h1 x (List.mem_cons_self x _)).1 (h2 y (List.mem_cons_self y _)).1 h
                  have htail := ih (y2 :: ys2)
                    (fun s hs => h1 s (List.mem_cons_of_mem x hs))
                    (fun s hs => h2 s (List.mem_cons_of_mem y hs)) hrest
                  rw [hxy, htail]

theorem joinComma_decomp (A B : List (List Char)) :
    ∃ C D : List Char, ∀ x : List Char, joinComma (A ++ x :: B) = C ++ x ++ D := by
  induction A with
  | nil =>
      cases B with
      | nil => exact ⟨[], [], fun x => by simp [joinComma]⟩
      | cons b bs =>
          refine ⟨[], ',' :: joinComma (b :: bs), fun x => ?_⟩
          rw [List.nil_append, joinComma_cons_ne x (b :: bs) (by simp)]
          simp
  | cons a as ih =>
      obtain ⟨C, D, hCD⟩ := ih
      refine ⟨a ++ ',' :: C, D, fun x => ?_⟩
      have hne : as ++ x :: B ≠ [] := by
        cases as <;> simp
      rw [List.cons_append, joinComma_cons_ne a _ hne, hCD x]
      simp

/-- Embedding of `sorted(votation_ids)`: Python's stable sort, embedded as insertion
sort (stable sorts under the same total order agree). -/
def sortInts (l : List Int) : List Int :=
  l.insertionSort (· ≤ ·)

theorem sortInts_eq_of_perm {l1 l2 : List Int} (h : l1.Perm l2) :
    sortInts l1 = sortInts l2 :=
  List.eq_of_perm_of_sorted
    ((List.perm_insertionSort _ l1).trans (h.trans (List.perm_insertionSort _ l2).symm))
    (List.sorted_insertionSort _ l1) (List.sorted_insertionSort _ l2)

/-- Python's comparison of `(key, value)` tuples of strings: lexicographic
on the pair. -/
def tupleLe (p q : List Char × List Char) : Prop :=
  p.1 < q.1 ∨ (p.1 = q.1 ∧ p.2 ≤ q.2)

instance : DecidableRel tupleLe := fun p q => by
  unfold tupleLe
  infer_instance

instance : IsTotal (List Char × List Char) tupleLe := ⟨by
  intro a b
  rcases lt_trichotomy a.1 b.1 with h | h | h
  · exact Or.inl (Or.inl h)
  · rcases le_total a.2 b.2 with h2 | h2
    · exact Or.inl (Or.inr ⟨h, h2⟩)
    · exact Or.inr (Or.inr ⟨h.symm, h2⟩)
  · exact Or.inr (Or.inl h)⟩

instance : IsTrans (List Char × List Char) tupleLe := ⟨by
  intro a b c hab hbc
  rcases hab with h | ⟨he, hv⟩ <;> rcases hbc with h' | ⟨he', hv'⟩
  · exact Or.inl (h.trans h')
  · exact Or.inl (he' ▸ h)
  · exact Or.inl (he ▸ h')
  · exact Or.inr ⟨he.trans he', hv.trans hv'⟩⟩

instance : IsAntisymm (List Char × List Char) tupleLe := ⟨by
  intro a b hab hba
  rcases hab with h | ⟨he, hv⟩ <;> rcases hba with h' | ⟨he', hv'⟩
  · exact absurd h' (lt_asymm h)
  · exact absurd h (he' ▸ lt_irrefl b.1)
  · exact absurd h' (he ▸ lt_irrefl a.1)
  · exact Prod.ext he (le_antisymm hv hv')⟩

/-- Embedding of `sorted(calculation_params.items())`. -/
def sortParams (ps : List (List Char × List Char)) :
    List (List Char × List Char) :=
  ps.insertionSort tupleLe

theorem sortParams_eq_of_perm {ps ps' : List (List Char × List Char)}
    (h : ps.Perm ps') : sortParams ps = sortParams ps' :=
  List.eq_of_perm_of_sorted
    ((List.perm_insertionSort _ ps).trans (h.trans (List.perm_insertionSort _ ps').symm))
    (List.sorted_insertionSort _ ps) (List.sorted_insertionSort _ ps')

/-- One `f"{k}:{v}"` entry of the parameter string. -/
def paramEntry (p : List Char × List Char) : List Char :=
  p.1 ++ ':' :: p.2

/-- Embedding of `generate_vote_hash` up to the canonical pre-digest string: sorted ids
joined by commas, then - when the parameter dict is non-empty (`if
calculation_params:`) - a `'|'` and the comma-joined `"key:value"` entries
of the sorted parameters.  The SHA-256 digest applied to this string by the
source is modelled as the identity (see the section comment). -/
def generate_vote_hash (votationIds : List Int)
    (params : List (List Char × List Char)) : List Char :=
  let idsStr := joinComma ((sortInts votationIds).map pyStrInt)
  if params = [] then idsStr
  else idsStr ++ '|' :: joinComma ((sortParams params).map paramEntry)

theorem list_set_self {α : Type} (l : List α) (i : Nat) (h : i < l.length) :
    l.set i l[i] = l := by
  apply List.ext_getElem
  · simp
  · intro n h1 h2
    rcases eq_or_ne n i with rfl | hne
    · simp
    · rw [List.getElem_set_ne hne.symm]

/-- C6.  The fingerprint is pure and order-independent: permuting the ballot
ids and the parameter entries leaves the canonical string unchanged; and it
separates single changes: replacing one ballot id by a different value, or
one parameter's value by a different string (the parameter list being a
dict, its keys strictly increasing in canonical form), changes the canonical
string. -/
theorem c6_fingerprint_deterministic :
    (∀ (ids ids' : List Int) (ps ps' : List (List Char × List Char)),
      ids.Perm ids' → ps.Perm ps' →
      generate_vote_hash ids ps = generate_vote_hash ids' ps') ∧
    (∀ (ids : List Int) (ps : List (List Char × List Char)) (i : Nat)
      (h : i < ids.length) (v : Int), v ≠ ids[i] →
      generate_vote_hash (ids.set i v) ps ≠ generate_vote_hash ids ps) ∧
    (∀ (ids : List Int) (ps : List (List Char × List Char)) (i : Nat)
      (h : i < ps.length) (v' : List Char),
      List.Pairwise (fun p q => p.1 < q.1) ps → v' ≠ ps[i].2 →
      generate_vote_hash ids (ps.set i (ps[i].1, v'))
        ≠ generate_vote_hash ids ps) := by
  refine ⟨?_, ?_, ?_⟩
  · intro ids ids' ps ps' hid hps
    unfold generate_vote_hash
    have h1 : sortInts ids = sortInts ids' := sortInts_eq_of_perm hid
    have h2 : sortParams ps = sortParams ps' := sortParams_eq_of_perm hps
    by_cases hnil : ps = []
    · have hnil' : ps' = [] := by
        subst hnil
        exact hps.symm.eq_nil
      rw [if_pos hnil, if_pos hnil', h1]
    · have hnil' : ps' ≠ [] := by
        intro he
        subst he
        exact hnil hps.eq_nil
      rw [if_neg hnil, if_neg hnil', h1, h2]
  · intro ids ps i h v hne heq
    have hids : joinComma ((sortInts (ids.set i v)).map pyStrInt)
        = joinComma ((sortInts ids).map pyStrInt) := by
      by_cases hnil : ps = []
      · simpa only [generate_vote_hash, if_pos hnil] using heq
      · simp only [generate_vote_hash, if_neg hnil] at heq
        exact List.append_cancel_right heq
    have hside : ∀ l : List Int, ∀ s ∈ (sortInts l).map pyStrInt, ',' ∉ s ∧ s ≠ [] := by
      intro l s hs
      obtain ⟨x, _, rfl⟩ := List.mem_map.mp hs
      exact ⟨pyStrInt_noComma x, pyStrInt_ne_nil x⟩
    have hmap := joinComma_inj _ _ (hside _) (hside _) hids
    have hsort : sortInts (ids.set i v) = sortInts ids :=
      List.map_injective_iff.mpr pyStrInt_inj hmap
    have hperm : (ids.set i v).Perm ids := by
      have p1 : (sortInts (ids.set i v)).Perm (ids.set i v) :=
        List.perm_insertionSort _ _
      have p2 : (sortInts ids).Perm ids := List.perm_insertionSort _ _
      rw [← hsort] at p2
      exact p1.symm.trans p2
    have hcount := hperm.count_eq v
    rw [List.count_set v v ids i h] at hcount
    have hii : (ids[i] == v) = false := by
      simp only [beq_eq_false_iff_ne]
      exact fun hh => hne hh.symm
    rw [hii] at hcount
    simp at hcount
  · intro ids ps i h v' hsorted hne heq
    have hnil : ps ≠ [] := by
      intro he
      rw [he] at h
      exact absurd h (by simp)
    have hnil' : ps.set i (ps[i].1, v') ≠ [] := by
      intro he
      have := congrArg List.length he
      simp only [List.length_set, List.length_nil] at this
      omega
    simp only [generate_vote_hash, if_neg hnil, if_neg hnil'] at heq
    have hpipe := List.append_cancel_left heq
    have hjoin : joinComma ((sortParams (ps.set i (ps[i].1, v'))).map paramEntry)
        = joinComma ((sortParams ps).map paramEntry) := by
      injection hpipe
    have hSps : sortParams ps = ps :=
      List.Sorted.insertionSort_eq (hsorted.imp fun hlt => Or.inl hlt)
    have hkeys : (ps.set i (ps[i].1, v')).map Prod.fst = ps.map Prod.fst := by
      rw [List.map_set]
      have hib : i < (ps.map Prod.fst).length := by simpa using h
      have : (ps[i]).1 = (ps.map Prod.fst)[i] := by
        rw [List.getElem_map]
      rw [this, list_set_self]
    have hsorted' : List.Pairwise (fun p q : List Char × List Char => p.1 < q.1)
        (ps.set i (ps[i].1, v')) := by
      have h1 : List.Pairwise (· < ·) (ps.map Prod.fst) :=
        List.pairwise_map.mpr hsorted
      have h2 : List.Pairwise (· < ·) ((ps.set i (ps[i].1, v')).map Prod.fst) :=
        hkeys ▸ h1
      exact List.pairwise_map.mp h2
    have hSps' : sortParams (ps.set i (ps[i].1, v')) = ps.set i (ps[i].1, v') :=
      List.Sorted.insertionSort_eq (hsorted'.imp fun hlt => Or.inl hlt)
    rw [hSps, hSps'] at hjoin
    have hM' : (ps.set i (ps[i].1, v')).map paramEntry
        = (ps.map paramEntry).set i (paramEntry (ps[i].1, v')) := List.map_set
    have hiM : i < (ps.map paramEntry).length := by simpa using h
    have hMdecomp : ps.map paramEntry
        = (ps.map paramEntry).take i
            ++ (ps.map paramEntry)[i] :: (ps.map paramEntry).drop (i + 1) := by
      conv_lhs => rw [← List.take_append_drop i (ps.map paramEntry)]
      rw [List.drop_eq_getElem_cons hiM]
    obtain ⟨C, D, hCD⟩ := joinComma_decomp ((ps.map paramEntry).take i)
      ((ps.map paramEntry).drop (i + 1))
    have hL : joinComma ((ps.set i (ps[i].1, v')).map paramEntry)
        = C ++ paramEntry (ps[i].1, v') ++ D := by
      rw [hM', List.set_eq_take_append_cons_drop, if_pos hiM]
      exact hCD _
    have hR : joinComma (ps.map paramEntry) = C ++ (ps.map paramEntry)[i] ++ D := by
      conv_lhs => rw [hMdecomp]
      exact hCD _
    rw [hL, hR] at hjoin
    have hE : paramEntry (ps[i].1, v') = (ps.map paramEntry)[i] :=
      List.append_cancel_left (List.append_cancel_right hjoin)
    rw [List.getElem_map] at hE
    unfold paramEntry at hE
    have hv := List.append_cancel_left hE
    injection hv with _ hv2
    exact hne hv2

/-- Witness for `c6_fingerprint_deterministic`: ids `[3, 1, 2]` and
`[1, 2, 3]` with the same parameter fingerprint the same; changing ballot id
7 to 6 in `[5, 7]` changes the fingerprint; and changing the value of the
parameter `"a"` from `"x"` to `"y"` changes the fingerprint. -/
theorem c6_fingerprint_witness :
    (generate_vote_hash [3, 1, 2] [(['a'], ['x'])]
      = generate_vote_hash [1, 2, 3] [(['a'], ['x'])]) ∧
    (generate_vote_hash ([5, 7].set 1 6) [] ≠ generate_vote_hash [5, 7] []) ∧
    (generate_vote_hash [5] ([(['a'], ['x'])].set 0 ((['a'], ['x']).1, ['y']))
      ≠ generate_vote_hash [5] [(['a'], ['x'])]) :=
  ⟨c6_fingerprint_deterministic.1 [3, 1, 2] [1, 2, 3] _ _ (by decide) (List.Perm.refl _),
    c6_fingerprint_deterministic.2.1 [5, 7] [] 1 (by decide) 6 (by decide),
    c6_fingerprint_deterministic.2.2 [5] [(['a'], ['x'])] 0 (by decide) ['y']
      (by simp) (by decide)⟩
